import Mathlib

/-!
Verification development for the FXSD (FoXtrot Serialized Data) serializer.

The definitions below are a shallow embedding of the serializer sources
(FxSerialize.hpp and its implementation file).  Machine integers are
modelled as `Nat` with explicit reductions modulo powers of two at the
points where the C++ code performs narrowing conversions.  The 32-bit
float values handled by the serializer are modelled as rationals; the
cast `static_cast<uint32>(float)` performed by the float serializer is
modelled as truncation toward zero (the two agree on the non-negative
in-range values for which the C++ cast is defined).
-/

namespace FxSerialize

/-- Big-endian byte pair emitted by `FxSerializerBaseSection::Write16`:
the high byte `value16 >> 8` followed by the low byte. -/
def bytes16 (n : Nat) : List Nat := [n / 256 % 256, n % 256]

/-- Big-endian byte quadruple emitted by `FxSerializerBaseSection::Write32`,
which writes the high and low 16-bit halves through `Write16`. -/
def bytes32 (n : Nat) : List Nat := bytes16 (n / 65536 % 65536) ++ bytes16 (n % 65536)

/-- `FxSerializerBaseSection::Read8` on the remaining byte stream:
returns the next byte and the rest of the stream. -/
def read8 (st : List Nat) : Nat × List Nat := (st.headD 0, st.tail)

/-- `FxSerializerBaseSection::Read16`: high byte shifted left by 8, or-ed
with the low byte. -/
def read16 (st : List Nat) : Nat × List Nat :=
  let r1 := read8 st
  let r2 := read8 r1.2
  (r1.1 * 256 + r2.1, r2.2)

/-- `FxSerializerBaseSection::Read32`: high 16-bit half shifted left by 16,
or-ed with the low 16-bit half. -/
def read32 (st : List Nat) : Nat × List Nat :=
  let r1 := read16 st
  let r2 := read16 r1.2
  (r1.1 * 65536 + r2.1, r2.2)

mutual
/-- A value of one of the field kinds the serializer supports: a 32-bit
integer (stored as its unsigned bit pattern), a 32-bit float (its real
value, as a rational), a length-prefixed string (its bytes), or a nested
serializable aggregate with its registered type id and its declared
fields in order. -/
inductive FxVal : Type where
  | vInt (n : Nat)
  | vFloat (q : Rat)
  | vStr (s : List Nat)
  | vStruct (tid : Nat) (fields : FxFields)

/-- The ordered field list of an aggregate, as declared through
`FX_SERIALIZABLE_MEMBERS`. -/
inductive FxFields : Type where
  | nil
  | cons (v : FxVal) (fs : FxFields)
end

/-- The conversion `static_cast<uint32>(value)` applied by the `float32`
specialization of `FxSerializeValue`: truncation toward zero, reduced
modulo `2^32` (the C++ cast is only defined for values in range; the
reduction totalizes the model). -/
def floatToU32 (q : Rat) : Nat := q.floor.toNat % 4294967296

mutual
/-- `FxSerializeValue`, by field kind: `int32` writes its 32-bit pattern;
`float32` writes `static_cast<uint32>(value)` (truncation); `std::string`
writes a 16-bit length then the raw bytes; a nested serializable aggregate
runs `value.WriteTo(0, writer)`, which emits a full record frame of its
own with name hash `0`. -/
def serializeValue : FxVal → List Nat
  | .vInt n => bytes32 (n % 4294967296)
  | .vFloat q => bytes32 (floatToU32 q)
  | .vStr s => bytes16 (s.length % 65536) ++ s
  | .vStruct tid fs =>
      11 :: (bytes16 (tid % 65536) ++ (bytes32 0 ++ (serializeFields fs ++ [176])))

/-- The fold of `FxSerializeValue` over the declared members, in order. -/
def serializeFields : FxFields → List Nat
  | .nil => []
  | .cons v fs => serializeValue v ++ serializeFields fs
end

/-- `FxSerializeStruct`: header `0x0B`, type id, name hash, the members in
declared order, footer `0xB0`. -/
def fxSerializeStruct (tid nameHash : Nat) (fs : FxFields) : List Nat :=
  11 :: (bytes16 (tid % 65536) ++ (bytes32 (nameHash % 4294967296) ++
    (serializeFields fs ++ [176])))

/-- The return paths of `FxDeserializeStruct`: normal completion, or the
early returns on a bad header byte, a name-hash mismatch, or a bad footer
byte. -/
inductive ReadStatus : Type where
  | ok
  | badHeader
  | nameMismatch
  | badFooter
  deriving DecidableEq

mutual
/-- `FxDeserializeValue`, by destination field kind: `int32*` and
`float32*` read a 32-bit value (the float destination receives the integer
converted back to a float); a string destination hits the unspecialized
template, which reads nothing and leaves the destination untouched; a
nested aggregate destination runs `value->ReadFrom(0, writer)`, i.e. the
body of `FxDeserializeStruct` with requested hash `0`, discarding its
outcome. -/
def deserializeValue : FxVal → List Nat → FxVal × List Nat
  | .vInt _, st =>
      let r := read32 st
      (.vInt r.1, r.2)
  | .vFloat _, st =>
      let r := read32 st
      (.vFloat (r.1 : Rat), r.2)
  | .vStr s, st => (.vStr s, st)
  | .vStruct tid fs, st =>
      let r1 := read8 st
      if r1.1 ≠ 11 then (.vStruct tid fs, r1.2)
      else
        let r2 := read16 r1.2
        let r3 := read32 r2.2
        if r3.1 ≠ 0 ∧ r3.1 ≠ 0 then (.vStruct tid fs, r3.2)
        else
          let r4 := deserializeFields fs r3.2
          let r5 := read8 r4.2
          (.vStruct tid r4.1, r5.2)

/-- The fold of `FxDeserializeValue` over the destination members, in
declared order (the `std::apply` over the member-pointer tuple). -/
def deserializeFields : FxFields → List Nat → FxFields × List Nat
  | .nil, st => (.nil, st)
  | .cons v fs, st =>
      let r1 := deserializeValue v st
      let r2 := deserializeFields fs r1.2
      (.cons r1.1 r2.1, r2.2)
end

/-- `FxDeserializeStruct` at the record level, with its outcome made
explicit: validates the `0x0B` header, reads the stored type id and name
hash, fails with a name mismatch when the stored hash is non-zero and
differs from the requested hash, otherwise deserializes the members in
order and checks the `0xB0` footer. -/
def fxDeserializeStruct (nameHash : Nat) (fs : FxFields) (st : List Nat) :
    ReadStatus × FxFields × List Nat :=
  let r1 := read8 st
  if r1.1 ≠ 11 then (.badHeader, fs, r1.2)
  else
    let r2 := read16 r1.2
    let r3 := read32 r2.2
    if r3.1 ≠ 0 ∧ r3.1 ≠ nameHash % 4294967296 then (.nameMismatch, fs, r3.2)
    else
      let r4 := deserializeFields fs r3.2
      let r5 := read8 r4.2
      if r5.1 ≠ 176 then (.badFooter, r4.1, r5.2)
      else (.ok, r4.1, r5.2)

mutual
/-- Two values have the same shape when they are the same field kind, with
equal type ids and shape-equal fields for aggregates.  A fresh
default-constructed destination of the same C++ type as the serialized
value has the same shape as it. -/
def sameShapeV : FxVal → FxVal → Bool
  | .vInt _, .vInt _ => true
  | .vFloat _, .vFloat _ => true
  | .vStr _, .vStr _ => true
  | .vStruct t1 f1, .vStruct t2 f2 => t1 == t2 && sameShapeF f1 f2
  | _, _ => false

/-- Shape equality of field lists, member by member. -/
def sameShapeF : FxFields → FxFields → Bool
  | .nil, .nil => true
  | .cons v1 f1, .cons v2 f2 => sameShapeV v1 v2 && sameShapeF f1 f2
  | _, _ => false
end

mutual
/-- Values within the range the C++ code handles exactly: integer fields
are 32-bit patterns, float fields are non-negative and below `2^24` (so
that both the truncating store and the integer-to-float load are exact in
IEEE single precision), and no string fields occur (the code has no
string deserializer). -/
def goodV : FxVal → Bool
  | .vInt n => decide (n < 4294967296)
  | .vFloat q => decide (0 ≤ q) && decide (q < 16777216)
  | .vStr _ => false
  | .vStruct _ fs => goodF fs

/-- `goodV` over a field list. -/
def goodF : FxFields → Bool
  | .nil => true
  | .cons v fs => goodV v && goodF fs
end

mutual
/-- The value that actually comes back from a round trip: integer, string
and aggregate structure are kept, while each float field is replaced by
the float reconstructed from its truncated 32-bit integer image. -/
def truncV : FxVal → FxVal
  | .vInt n => .vInt n
  | .vFloat q => .vFloat ((floatToU32 q : Nat) : Rat)
  | .vStr s => .vStr s
  | .vStruct tid fs => .vStruct tid (truncF fs)

/-- `truncV` over a field list. -/
def truncF : FxFields → FxFields
  | .nil => .nil
  | .cons v fs => .cons (truncV v) (truncF fs)
end

mutual
/-- Every float field holds a whole number (denominator one).  On such
values truncation through the 32-bit integer path is lossless. -/
def wholeV : FxVal → Bool
  | .vInt _ => true
  | .vFloat q => q.den == 1
  | .vStr _ => true
  | .vStruct _ fs => wholeF fs

/-- `wholeV` over a field list. -/
def wholeF : FxFields → Bool
  | .nil => true
  | .cons v fs => wholeV v && wholeF fs
end

/-!  Type section: cursor-based scan and recursive schema read.  -/

/-- A section buffer as seen by the type-section readers: the backing
bytes, the capacity `Size` fixed at creation, and the read cursor
`Index`. -/
structure TSec : Type where
  data : List Nat
  size : Nat
  idx : Nat
  deriving DecidableEq

/-- `Read8` on a section: the byte at the cursor (out-of-range reads are
modelled as returning `0`) and the advanced cursor. -/
def secRead8 (s : TSec) : Nat × TSec :=
  (s.data.getD s.idx 0, { s with idx := s.idx + 1 })

/-- `Read16` on a section. -/
def secRead16 (s : TSec) : Nat × TSec :=
  let r1 := secRead8 s
  let r2 := secRead8 r1.2
  (r1.1 * 256 + r2.1, r2.2)

/-- The member-skipping loop inside `FindIndexFromTypeId`: each member
descriptor is two 16-bit reads, so `4` cursor steps per member. -/
def skipMembers : Nat → TSec → TSec
  | 0, s => s
  | k + 1, s => skipMembers k { s with idx := s.idx + 4 }

/-- The scan loop of `FxSerializerTypeSection::FindIndexFromTypeId`,
with an explicit fuel argument bounding the number of iterations (each
iteration advances the cursor by at least one byte and the loop runs only
while the cursor is below `size`, so fuel `size + 1` is never exhausted).
Returns the C++ `entry_index` value and the section state at loop exit:
on a marker mismatch the loop breaks and the function still returns
`entry_index`, exactly as the C++ does. -/
def findLoop (id : Nat) : Nat → TSec → Nat → Nat × TSec
  | 0, s, entry => (entry, s)
  | fuel + 1, s, entry =>
    if s.idx < s.size then
      let entry2 := s.idx
      let r1 := secRead8 s
      if r1.1 ≠ 239 then (entry2, r1.2)
      else
        let r2 := secRead16 r1.2
        if r2.1 = id then (entry2, r2.2)
        else
          let r3 := secRead16 r2.2
          let r4 := secRead8 r3.2
          let r5 := skipMembers r4.1 r4.2
          let r6 := secRead8 r5
          if r6.1 ≠ 190 then (entry2, r6.2)
          else findLoop id fuel r6.2 entry2
    else (entry, s)

/-- `FxSerializerTypeSection::FindIndexFromTypeId`: saves the cursor,
rewinds to the section start, scans forward, and restores the cursor on
every path through `REVERT_INDEX_AFTER_SCOPE`.  The returned number is
the C++ return value: the start offset of the matching entry, but also
`0` when the very first marker check fails and the last scanned offset on
the other failure paths. -/
def findIndexFromTypeId (s : TSec) (id : Nat) : Nat × TSec :=
  let r := findLoop id (s.size + 1) { s with idx := 0 } 0
  (r.1, { r.2 with idx := s.idx })

/-- The parsed `FxSerializedType` tree: id, byte size, and the resolved
member types. -/
structure FxSerializedType : Type where
  id : Nat
  size : Nat
  members : List FxSerializedType

mutual
/-- `FxSerializerTypeSection::ReadType` with an explicit recursion-depth
fuel (the C++ recursion is unbounded on adversarial bytes).  Saves the
cursor, seeks to `index`, parses the entry frame, resolves each member
through `FindIndexFromTypeId` followed by a recursive read, and restores
the cursor on every path through `REVERT_INDEX_AFTER_SCOPE`. -/
def readType : Nat → TSec → Nat → FxSerializedType × TSec
  | 0, s, _ => (⟨0, 0, []⟩, s)
  | fuel + 1, s, index =>
    let s0 := { s with idx := index }
    let r1 := secRead8 s0
    if r1.1 ≠ 239 then (⟨0, 0, []⟩, { r1.2 with idx := s.idx })
    else
      let r2 := secRead16 r1.2
      let r3 := secRead16 r2.2
      let r4 := secRead8 r3.2
      let r5 := readMembers fuel r4.1 r4.2
      let r6 := secRead8 r5.2
      (⟨r2.1, r3.1, r5.1⟩, { r6.2 with idx := s.idx })
termination_by fuel s index => (fuel, 0)

/-- The member loop of `ReadType`: skip the member size, read the member
id, resolve its entry offset, and recursively read it. -/
def readMembers : Nat → Nat → TSec → List FxSerializedType × TSec
  | _, 0, s => ([], s)
  | fuel, k + 1, s =>
    let r1 := secRead16 s
    let r2 := secRead16 r1.2
    let rf := findIndexFromTypeId r2.2 r2.1
    let rm := readType fuel rf.2 rf.1
    let rr := readMembers fuel k rm.2
    (rm.1 :: rr.1, rr.2)
termination_by fuel k s => (fuel, k + 1)
end

/-!  Type section: write-time schema registration and dedup.  -/

mutual
/-- The shape of a registered type as the writer sees it: a primitive
(non-serializable) type with its id and byte size, or an aggregate with
its id, byte size and ordered member types. -/
inductive TypeDesc : Type where
  | prim (id sizeB : Nat)
  | agg (id sizeB : Nat) (members : TypeDescs)

/-- An ordered list of member type shapes. -/
inductive TypeDescs : Type where
  | nil
  | cons (t : TypeDesc) (ts : TypeDescs)
end

/-- The type id of a shape. -/
def descId : TypeDesc → Nat
  | .prim id _ => id
  | .agg id _ _ => id

/-- The byte size of a shape. -/
def descSize : TypeDesc → Nat
  | .prim _ sz => sz
  | .agg _ sz _ => sz

/-- The `(id, size)` pairs of the declared members, in order, as passed
to `WriteTypeWithoutChecks`. -/
def declaredMembers : TypeDescs → List (Nat × Nat)
  | .nil => []
  | .cons t ts => (descId t, descSize t) :: declaredMembers ts

/-- The write-time state of `FxSerializerTypeSection`: the emitted bytes
and `mRegisteredTypeIds`, the list of `(Id, Offset)` pairs appended by
`WriteTypeWithoutChecks`. -/
structure TypeSectionW : Type where
  data : List Nat
  registered : List (Nat × Nat)
  deriving DecidableEq

/-- A type section with nothing written. -/
def emptyTS : TypeSectionW := ⟨[], []⟩

/-- `FxSerializerTypeSection::IsTypePreviouslyWritten`: a linear scan of
`mRegisteredTypeIds` for the id. -/
def isTypePreviouslyWritten (st : TypeSectionW) (id : Nat) : Bool :=
  st.registered.any (fun p => p.1 == id)

/-- The byte frame of one schema entry:
`0xEF, id, size, member count, (member size, member id) pairs, 0xBE`. -/
def entryBytes (id sizeB : Nat) (members : List (Nat × Nat)) : List Nat :=
  239 :: (bytes16 (id % 65536) ++ (bytes16 (sizeB % 65536) ++
    ((members.length % 256) ::
      (members.flatMap (fun m => bytes16 (m.2 % 65536) ++ bytes16 (m.1 % 65536)) ++ [190]))))

/-- `FxSerializerTypeSection::WriteTypeWithoutChecks`: no-op when the id
was previously written, otherwise append the entry frame and register the
id at the entry start offset. -/
def writeTypeWithoutChecks (st : TypeSectionW) (id sizeB : Nat)
    (members : List (Nat × Nat)) : TypeSectionW :=
  if isTypePreviouslyWritten st id then st
  else
    { data := st.data ++ entryBytes id sizeB members,
      registered := st.registered ++ [(id, st.data.length)] }

mutual
/-- `FxSerializerTypeSection::WriteTypeForTypeId`: skip when previously
written; otherwise a serializable member runs its own `WriteTypeTo`
(i.e. `WriteTypeAndMembers`: members first, then its own entry) and a
non-serializable member is written with no members of its own. -/
def writeTypeFor : TypeDesc → TypeSectionW → TypeSectionW
  | .prim id sz, st =>
      if isTypePreviouslyWritten st id then st
      else writeTypeWithoutChecks st id sz []
  | .agg id sz ms, st =>
      if isTypePreviouslyWritten st id then st
      else writeTypeWithoutChecks (writeForList ms st) id sz (declaredMembers ms)

/-- The fold of `WriteTypeForTypeId` over the member list, in declared
order. -/
def writeForList : TypeDescs → TypeSectionW → TypeSectionW
  | .nil, st => st
  | .cons t ts, st => writeForList ts (writeTypeFor t st)
end

/-- `FxSerializerTypeSection::WriteTypeAndMembers`, the entry point used
by `WriteTypeTo` on every record write: skip when previously written,
otherwise ensure each member type is registered, then write this type. -/
def writeTypeAndMembers (id sizeB : Nat) (ms : TypeDescs) (st : TypeSectionW) :
    TypeSectionW :=
  if isTypePreviouslyWritten st id then st
  else writeTypeWithoutChecks (writeForList ms st) id sizeB (declaredMembers ms)

/-- The schema write performed by the `WriteTo` of an aggregate with
shape `t`. -/
def recordSchemaWrite (t : TypeDesc) (st : TypeSectionW) : TypeSectionW :=
  match t with
  | .prim id sz => writeTypeWithoutChecks st id sz []
  | .agg id sz ms => writeTypeAndMembers id sz ms st

/-- `N` successive record writes of the same aggregate type. -/
def iterSchemaWrite (t : TypeDesc) : Nat → TypeSectionW → TypeSectionW
  | 0, st => st
  | n + 1, st => iterSchemaWrite t n (recordSchemaWrite t st)

/-!  Type-id registry.  -/

/-- The process-wide registry state behind `FxSerializeUtil::GetTypeId`:
which types (identified here by an abstract key) have been assigned which
id, and the current value of the 16-bit counter `SerializeTypeIdCount`. -/
structure Registry : Type where
  assigned : List (Nat × Nat)
  counter : Nat
  deriving DecidableEq

/-- The registry before any type id was requested. -/
def emptyRegistry : Registry := ⟨[], 0⟩

/-- `FxSerializeUtil::GetTypeId_` for one type: the static local returns
the id assigned on the first request for this type; a first request
pre-increments the 16-bit counter and assigns its new value. -/
def getTypeId (r : Registry) (t : Nat) : Nat × Registry :=
  match r.assigned.find? (fun p => p.1 == t) with
  | some p => (p.2, r)
  | none =>
      let c := (r.counter + 1) % 65536
      (c, ⟨r.assigned ++ [(t, c)], c⟩)

/-- The registry after the given sequence of type-id requests. -/
def runRequests (reqs : List Nat) : Registry :=
  reqs.foldl (fun r t => (getTypeId r t).2) emptyRegistry

/-!  Archive container: file load.  -/

/-- A section buffer as the file loader sees it: the capacity fixed at
construction and the bytes currently stored. -/
structure Buffer : Type where
  cap : Nat
  data : List Nat
  deriving DecidableEq

/-- Little-endian 32-bit value of the first four bytes, as obtained by
`fread` of a `uint32` on a little-endian machine. -/
def u32le (l : List Nat) : Nat :=
  l.getD 0 0 + 256 * l.getD 1 0 + 65536 * l.getD 2 0 + 16777216 * l.getD 3 0

/-- The multicharacter file signature `'FXSD'`. -/
def sigFXSD : Nat := 1180193604

/-- The multicharacter data-section signature `'.DAT'`. -/
def sigDAT : Nat := 776225108

/-- The little-endian bytes of a 32-bit value, as `fwrite` of a `uint32`
emits them. -/
def u32leBytes (n : Nat) : List Nat :=
  [n % 256, n / 256 % 256, n / 65536 % 256, n / 16777216 % 256]

/-- The return paths of `FxSerializerIO::ReadFromFile`: completion, or
the early returns on a bad file signature or a bad data-section
signature. -/
inductive LoadResult : Type where
  | ok
  | badFileSig
  | badDataSig
  deriving DecidableEq

/-- The `fread` of a declared number of section bytes into a buffer: the
bytes are copied to the front of the buffer with no capacity check, just
as the C++ load does. -/
def freadInto (buf : Buffer) (src : List Nat) : Buffer :=
  ⟨buf.cap, src ++ buf.data.drop src.length⟩

/-- `FxSerializerIO::ReadFromFile` over the file bytes: validate the file
signature, copy the declared number of type-section bytes into the type
buffer, validate the data-section signature, copy the declared number of
data-section bytes into the data buffer.  The type-section copy happens
before the data-signature check, and neither copy checks the destination
capacity. -/
def readFromFile (tsec dsec : Buffer) (file : List Nat) :
    LoadResult × Buffer × Buffer :=
  let sig := u32le (file.take 4)
  let f1 := file.drop 4
  if sig ≠ sigFXSD then (.badFileSig, tsec, dsec)
  else
    let tlen := u32le (f1.take 4)
    let f2 := f1.drop 4
    let tsec2 := freadInto tsec (f2.take tlen)
    let f3 := f2.drop tlen
    let dsig := u32le (f3.take 4)
    let f4 := f3.drop 4
    if dsig ≠ sigDAT then (.badDataSig, tsec2, dsec)
    else
      let dlen := u32le (f4.take 4)
      let f5 := f4.drop 4
      let dsec2 := freadInto dsec (f5.take dlen)
      (.ok, tsec2, dsec2)

/-- A concrete fresh destination aggregate used to instantiate the
round-trip theorem: integer, float and nested-aggregate fields at their
default values. -/
def destW : FxFields :=
  .cons (.vInt 0) (.cons (.vFloat 0) (.cons (.vStruct 4 (.cons (.vInt 0) .nil)) .nil))

/-- A concrete source aggregate of the same shape with non-default
values. -/
def srcW : FxFields :=
  .cons (.vInt 7) (.cons (.vFloat 3) (.cons (.vStruct 4 (.cons (.vInt 5) .nil)) .nil))

/-- A corrupted type section: its first entry byte is `0x00`, not the
entry marker `0xEF`. -/
def corruptTS : TSec := ⟨[0], 1, 0⟩

/-- A well-formed type section holding exactly one entry, for type id `1`
with size `4` and no members, starting at offset `0`. -/
def goodTS : TSec := ⟨[239, 0, 1, 0, 4, 0, 190], 7, 0⟩

/-- A concrete aggregate shape: id `1`, two primitive members. -/
def tW : TypeDesc := .agg 1 16 (.cons (.prim 2 4) (.cons (.prim 3 4) .nil))

/-- A concrete sequence of schema writes repeating the same shape. -/
def opsW : TypeDescs := .cons tW (.cons tW .nil)

/-- The ids `1, 2, ..., n` as the 16-bit counter produces them (each
reduced modulo `2^16`). -/
def seqIds (n : Nat) : List Nat := (List.range n).map (fun j => (j + 1) % 65536)

/-- A four-byte section buffer holding zeros. -/
def tinyBuf : Buffer := ⟨4, [0, 0, 0, 0]⟩

/-- A file whose type section declares five bytes — more than `tinyBuf`
can hold — followed by a valid data section of length zero. -/
def fileOversized : List Nat :=
  [68, 83, 88, 70, 5, 0, 0, 0, 1, 2, 3, 4, 5, 84, 65, 68, 46, 0, 0, 0, 0]

/-- A file with a valid `FXSD` signature and a one-byte type section
`0xAA`, followed by a wrong data-section signature. -/
def fileBadDataSig : List Nat :=
  [68, 83, 88, 70, 1, 0, 0, 0, 170, 9, 9, 9, 9, 0, 0, 0, 0]

/-!
Theorems.  First the shared codec and round-trip lemmas, then one theorem
per claim of the specification review.
-/

/-- The `Rat.floor` used by the model agrees with the floor of the
rational order. -/
theorem rat_floor_eq (q : Rat) : q.floor = ⌊q⌋ := by
  rw [Rat.floor_def, Rat.floor_def']

/-- `Read16` recovers the 16-bit value written by `Write16`. -/
theorem read16_bytes16 (n : Nat) (rest : List Nat) :
    read16 (bytes16 n ++ rest) = (n % 65536, rest) := by
  simp only [bytes16, read16, read8, List.cons_append, List.headD_cons, List.tail_cons,
    List.nil_append]
  exact Prod.ext (by omega) rfl

/-- `Read32` recovers the 32-bit value written by `Write32`. -/
theorem read32_bytes32 (n : Nat) (rest : List Nat) :
    read32 (bytes32 n ++ rest) = (n % 4294967296, rest) := by
  simp only [bytes32, read32, List.append_assoc, read16_bytes16]
  exact Prod.ext (by omega) rfl

/-- The truncated float image is always a legal 32-bit value. -/
theorem floatToU32_lt (q : Rat) : floatToU32 q < 4294967296 :=
  Nat.mod_lt _ (by omega)

mutual
/-- Deserializing into a shape-equal destination the bytes serialized
from a string-free, in-range value consumes exactly those bytes and
yields the value with each float field truncated. -/
theorem roundtrip_val (d v : FxVal) (rest : List Nat)
    (hs : sameShapeV d v = true) (hg : goodV v = true) :
    deserializeValue d (serializeValue v ++ rest) = (truncV v, rest) := by
  cases d <;> cases v
  case vInt.vInt m n =>
    simp only [goodV, decide_eq_true_eq] at hg
    simp [serializeValue, deserializeValue, truncV, read32_bytes32, Nat.mod_eq_of_lt hg]
  case vFloat.vFloat p q =>
    simp [serializeValue, deserializeValue, truncV, read32_bytes32,
      Nat.mod_eq_of_lt (floatToU32_lt q)]
  case vStr.vStr s1 s2 =>
    exact (Bool.false_ne_true hg).elim
  case vStruct.vStruct t1 f1 t2 f2 =>
    simp only [sameShapeV, Bool.and_eq_true, beq_iff_eq] at hs
    obtain ⟨ht, hsf⟩ := hs
    simp only [goodV] at hg
    subst ht
    have hr := roundtrip_fields f1 f2 (176 :: rest) hsf hg
    simp [serializeValue, deserializeValue, truncV, read8, read16_bytes16,
      read32_bytes32, List.append_assoc, hr]
  all_goals exact (Bool.false_ne_true hs).elim

/-- The field-list form of `roundtrip_val`. -/
theorem roundtrip_fields (d f : FxFields) (rest : List Nat)
    (hs : sameShapeF d f = true) (hg : goodF f = true) :
    deserializeFields d (serializeFields f ++ rest) = (truncF f, rest) := by
  cases d <;> cases f
  case nil.nil =>
    simp [serializeFields, deserializeFields, truncF]
  case cons.cons v1 f1 v2 f2 =>
    simp only [sameShapeF, Bool.and_eq_true] at hs
    simp only [goodF, Bool.and_eq_true] at hg
    obtain ⟨hsv, hsf⟩ := hs
    obtain ⟨hgv, hgf⟩ := hg
    have hv := roundtrip_val v1 v2 (serializeFields f2 ++ rest) hsv hgv
    have hf := roundtrip_fields f1 f2 rest hsf hgf
    simp [serializeFields, deserializeFields, truncF, List.append_assoc, hv, hf]
  all_goals exact (Bool.false_ne_true hs).elim
end

mutual
/-- On in-range values whose float fields are whole numbers, truncation
through the 32-bit integer path is the identity. -/
theorem trunc_id_val (v : FxVal) (hg : goodV v = true) (hw : wholeV v = true) :
    truncV v = v := by
  cases v
  case vInt n => rfl
  case vFloat q =>
    simp only [goodV, Bool.and_eq_true, decide_eq_true_eq] at hg
    simp only [wholeV, beq_iff_eq] at hw
    obtain ⟨h0, hlt⟩ := hg
    have hnum : (q.num : Rat) = q := Rat.coe_int_num_of_den_eq_one hw
    have hnn : 0 ≤ q.num := Rat.num_nonneg.mpr h0
    have hsm : q.num < 16777216 := by
      have : (q.num : Rat) < (16777216 : Rat) := by rw [hnum]; exact_mod_cast hlt
      exact_mod_cast this
    simp only [truncV, floatToU32, rat_floor_eq, FxVal.vFloat.injEq]
    rw [← hnum, Int.floor_intCast]
    rw [Nat.mod_eq_of_lt (by omega : q.num.toNat < 4294967296)]
    rw [← hnum]
    exact_mod_cast congrArg (fun z : Int => (z : Rat)) (Int.toNat_of_nonneg hnn)
  case vStr s => rfl
  case vStruct tid fs =>
    simp only [goodV] at hg
    simp only [wholeV] at hw
    simp only [truncV, FxVal.vStruct.injEq, true_and]
    exact trunc_id_fields fs hg hw

/-- The field-list form of `trunc_id_val`. -/
theorem trunc_id_fields (f : FxFields) (hg : goodF f = true) (hw : wholeF f = true) :
    truncF f = f := by
  cases f
  case nil => rfl
  case cons v fs =>
    simp only [goodF, Bool.and_eq_true] at hg
    simp only [wholeF, Bool.and_eq_true] at hw
    simp only [truncF, FxFields.cons.injEq]
    exact ⟨trunc_id_val v hg.1 hw.1, trunc_id_fields fs hg.2 hw.2⟩
end

/-- A 32-bit reduction is idempotent. -/
theorem mod32_mod32 (n : Nat) : n % 4294967296 % 4294967296 = n % 4294967296 := by
  omega

/-- C1, corrected.  Serializing an aggregate with `WriteTo` and reading
the produced bytes back with `ReadFrom` into a fresh same-shape
destination succeeds and reproduces every 32-bit integer field and every
nested aggregate exactly; each float field comes back as the float
rebuilt from its value truncated through a 32-bit unsigned integer,
which equals the original exactly when that value is a whole number.
String fields are excluded: the code has no string deserializer, so they
do not round-trip (see the counterexample for the original claim). -/
theorem c1_roundtrip_amended (tid nameHash : Nat) (dest src : FxFields)
    (rest : List Nat) (hs : sameShapeF dest src = true) (hg : goodF src = true) :
    fxDeserializeStruct nameHash dest (fxSerializeStruct tid nameHash src ++ rest) =
      (.ok, truncF src, rest) ∧ (wholeF src = true → truncF src = src) := by
  constructor
  · have hr := roundtrip_fields dest src (176 :: rest) hs hg
    simp [fxSerializeStruct, fxDeserializeStruct, read8, read16_bytes16,
      read32_bytes32, mod32_mod32, List.append_assoc, hr]
  · intro hw
    exact trunc_id_fields src hg hw

/-- Witness for C1: a concrete aggregate with an integer field, a whole
float field and a nested aggregate round-trips exactly. -/
theorem c1_roundtrip_amended_witness :
    fxDeserializeStruct 42 destW (fxSerializeStruct 2 42 srcW ++ []) =
      (.ok, truncF srcW, []) ∧ (wholeF srcW = true → truncF srcW = srcW) :=
  c1_roundtrip_amended 2 42 destW srcW [] (by decide) (by decide)

set_option maxRecDepth 4000 in
/-- Counterexample to C1 as stated: a float field holding `7/2` is
written as the truncated integer `3` and read back as `3.0`, so the
round trip does not reproduce every float field exactly. -/
theorem c1_float_not_exact :
    fxDeserializeStruct 9 (.cons (.vFloat 0) .nil)
        (fxSerializeStruct 1 9 (.cons (.vFloat (mkRat 7 2)) .nil) ++ []) =
      (.ok, .cons (.vFloat 3) .nil, [])
    ∧ FxVal.vFloat 3 ≠ FxVal.vFloat (mkRat 7 2) := by
  refine ⟨rfl, ?_⟩
  intro h
  injection h with h2
  exact absurd (congrArg Rat.den h2) (by decide)

/-- C2, corrected.  The name gate of `FxDeserializeStruct` tests the
STORED hash: when the stored hash is non-zero and differs from the
requested hash the read fails with a name mismatch and leaves the
destination untouched, and when the stored hash is zero the check is
disabled, so the read can never fail with a name mismatch regardless of
the requested hash. -/
theorem c2_name_gate_amended (nameHash tid sh : Nat) (fs : FxFields)
    (rest : List Nat) (h32 : sh < 4294967296) :
    (sh ≠ 0 → sh ≠ nameHash % 4294967296 →
      fxDeserializeStruct nameHash fs (11 :: (bytes16 tid ++ (bytes32 sh ++ rest))) =
        (.nameMismatch, fs, rest))
    ∧ (sh = 0 →
      (fxDeserializeStruct nameHash fs
          (11 :: (bytes16 tid ++ (bytes32 sh ++ rest)))).1 ≠ .nameMismatch) := by
  constructor
  · intro h0 hne
    simp [fxDeserializeStruct, read8, read16_bytes16, read32_bytes32,
      Nat.mod_eq_of_lt h32, h0, hne]
  · intro h0
    subst h0
    simp only [fxDeserializeStruct, read8, List.headD_cons, List.tail_cons,
      read16_bytes16, read32_bytes32, Nat.zero_mod, ne_eq, not_true_eq_false,
      false_and, if_false, not_false_eq_true, and_true, ite_not]
    split <;> simp

/-- Witness for C2: a record stored under hash `9` read back requesting
hash `7` fails with a name mismatch and the destination is unchanged. -/
theorem c2_name_gate_amended_witness :
    fxDeserializeStruct 7 FxFields.nil (11 :: (bytes16 1 ++ (bytes32 9 ++ []))) =
      (.nameMismatch, .nil, []) :=
  (c2_name_gate_amended 7 1 9 .nil [] (by decide)).1 (by decide) (by decide)

set_option maxRecDepth 4000 in
/-- Counterexample to C2 as stated: a read requesting hash `0` (which the
claim says always passes the name check) fails with a name mismatch when
the stored hash is the non-zero value `5`. -/
theorem c2_zero_request_fails :
    fxDeserializeStruct 0 FxFields.nil [11, 0, 1, 0, 0, 0, 5, 176] =
      (.nameMismatch, .nil, [176]) := rfl

/-- C3, corrected.  A nested aggregate member is serialized through its
own `WriteTo(0, writer)`, so the produced byte stream carries an inner
record frame for it: header `0x0B`, the nested TypeId, name hash `0`,
its fields in declared order, and footer `0xB0` — nested aggregates are
not emitted inline without framing. -/
theorem c3_nested_framing_amended (tidO nameHash tidI : Nat) (fsI tl : FxFields) :
    fxSerializeStruct tidO nameHash (.cons (.vStruct tidI fsI) tl) =
      11 :: (bytes16 (tidO % 65536) ++ (bytes32 (nameHash % 4294967296) ++
        ((11 :: (bytes16 (tidI % 65536) ++ (bytes32 0 ++ (serializeFields fsI ++ [176])))) ++
          (serializeFields tl ++ [176])))) := by
  simp [fxSerializeStruct, serializeFields, serializeValue, List.append_assoc]

set_option maxRecDepth 4000 in
/-- Counterexample to C3 as stated: serializing an outer aggregate whose
single member is a nested aggregate does not produce the claimed inline
encoding in which only the outermost record carries framing. -/
theorem c3_no_inner_frame_false :
    fxSerializeStruct 2 9 (.cons (.vStruct 1 (.cons (.vInt 5) .nil)) .nil) ≠
      11 :: (bytes16 2 ++ (bytes32 9 ++
        (serializeFields (.cons (.vInt 5) .nil) ++ [176]))) := by
  decide

/-- C9, confirmed.  String serialization writes a 16-bit length field
equal to the byte length reduced modulo `2^16`, followed by all of the
string bytes; the field equals the byte count exactly when the length is
at most `65535`, and differs from it for any longer string. -/
theorem c9_string_length_field (s : List Nat) :
    serializeValue (.vStr s) = bytes16 (s.length % 65536) ++ s
    ∧ (read16 (serializeValue (.vStr s))).1 = s.length % 65536
    ∧ ((read16 (serializeValue (.vStr s))).1 = s.length ↔ s.length ≤ 65535) := by
  have h1 : serializeValue (.vStr s) = bytes16 (s.length % 65536) ++ s := rfl
  have h2 : (read16 (serializeValue (.vStr s))).1 = s.length % 65536 := by
    rw [h1, read16_bytes16]
    omega
  refine ⟨h1, h2, ?_⟩
  rw [h2]
  omega

/-- `skipMembers` only moves the cursor. -/
theorem skipMembers_pres (k : Nat) (s : TSec) :
    (skipMembers k s).data = s.data ∧ (skipMembers k s).size = s.size := by
  induction k generalizing s with
  | zero => exact ⟨rfl, rfl⟩
  | succ n ih =>
    simpa only [skipMembers] using ih { s with idx := s.idx + 4 }

/-- The scan loop only moves the cursor: the section bytes and capacity
are untouched. -/
theorem findLoop_pres (id fuel : Nat) (s : TSec) (entry : Nat) :
    (findLoop id fuel s entry).2.data = s.data ∧
    (findLoop id fuel s entry).2.size = s.size := by
  induction fuel generalizing s entry with
  | zero => exact ⟨rfl, rfl⟩
  | succ n ih =>
    simp only [findLoop, secRead8, secRead16]
    repeat' split
    all_goals simp_all [skipMembers_pres]

/-- `FindIndexFromTypeId` returns the section exactly as it found it: the
cursor is restored by `REVERT_INDEX_AFTER_SCOPE` and nothing else is
written. -/
theorem findIndexFromTypeId_restores (s : TSec) (id : Nat) :
    (findIndexFromTypeId s id).2 = s := by
  have h := findLoop_pres id (s.size + 1) { s with idx := 0 } 0
  cases s
  simp only [findIndexFromTypeId]
  simp_all

/-- `ReadType` returns the section exactly as it found it on every path,
and its member loop only moves the cursor. -/
theorem readType_readMembers_pres (fuel : Nat) :
    (∀ s i, (readType fuel s i).2 = s) ∧
    (∀ k s, (readMembers fuel k s).2.data = s.data ∧
      (readMembers fuel k s).2.size = s.size) := by
  induction fuel with
  | zero =>
    have hQ : ∀ (s : TSec) (i : Nat), (readType 0 s i).2 = s := by
      intro s i
      simp [readType]
    refine ⟨hQ, ?_⟩
    intro k
    induction k with
    | zero =>
      intro s
      simp [readMembers]
    | succ m ihm =>
      intro s
      simp [readMembers, findIndexFromTypeId_restores, hQ, ihm, secRead16, secRead8]
  | succ n ihn =>
    have hQ : ∀ (s : TSec) (i : Nat), (readType (n + 1) s i).2 = s := by
      intro s i
      obtain ⟨d, sz, ix⟩ := s
      simp only [readType, secRead8, secRead16]
      split
      · simp
      · simp [ihn.2]
    refine ⟨hQ, ?_⟩
    intro k
    induction k with
    | zero =>
      intro s
      simp [readMembers]
    | succ m ihm =>
      intro s
      simp [readMembers, findIndexFromTypeId_restores, hQ, ihm, secRead16, secRead8]

/-- C10, confirmed.  Both type-section lookup operations restore the
cursor `Index` to its pre-call value on every path — success, id not
found, and marker corruption — and leave the section bytes and capacity
untouched, so recursive schema resolution never moves the cursor as
observed by the caller. -/
theorem c10_cursor_restored (s : TSec) (id index fuel : Nat) :
    (findIndexFromTypeId s id).2 = s ∧ (readType fuel s index).2 = s :=
  ⟨findIndexFromTypeId_restores s id, (readType_readMembers_pres fuel).1 s index⟩

set_option maxRecDepth 4000 in
/-- C4, refuted by the code (the specification marks this as the intended
behavior): a marker mismatch at the first entry makes the scan break and
return `entry_index = 0`, the very offset at which a successful lookup of
an id actually stored at offset `0` also returns, and the same value a
clean not-found scan over that one-entry section returns — the three
outcomes are indistinguishable to the caller. -/
theorem c4_masked_corruption :
    (findIndexFromTypeId corruptTS 1).1 = 0 ∧
    (findIndexFromTypeId goodTS 1).1 = 0 ∧
    (findIndexFromTypeId goodTS 2).1 = 0 ∧
    corruptTS.data.getD 0 0 ≠ 239 := by
  decide

/-- After `WriteTypeWithoutChecks` for an id, that id is registered. -/
theorem isReg_writeTypeWithoutChecks_self (st : TypeSectionW) (id sizeB : Nat)
    (ms : List (Nat × Nat)) :
    isTypePreviouslyWritten (writeTypeWithoutChecks st id sizeB ms) id = true := by
  unfold writeTypeWithoutChecks
  split
  · assumption
  · simp [isTypePreviouslyWritten]

/-- `WriteTypeWithoutChecks` only appends to the registered-id list. -/
theorem writeTypeWithoutChecks_reg_append (st : TypeSectionW) (id sizeB : Nat)
    (ms : List (Nat × Nat)) :
    ∃ l, (writeTypeWithoutChecks st id sizeB ms).registered = st.registered ++ l := by
  unfold writeTypeWithoutChecks
  split
  · exact ⟨[], by simp⟩
  · exact ⟨[(id, st.data.length)], rfl⟩

mutual
/-- `WriteTypeForTypeId` only appends to the registered-id list. -/
theorem writeTypeFor_reg_append (t : TypeDesc) (st : TypeSectionW) :
    ∃ l, (writeTypeFor t st).registered = st.registered ++ l := by
  cases t with
  | prim id sz =>
    simp only [writeTypeFor]
    split
    · exact ⟨[], by simp⟩
    · exact writeTypeWithoutChecks_reg_append st id sz []
  | agg id sz ms =>
    simp only [writeTypeFor]
    split
    · exact ⟨[], by simp⟩
    · obtain ⟨l1, h1⟩ := writeForList_reg_append ms st
      obtain ⟨l2, h2⟩ := writeTypeWithoutChecks_reg_append (writeForList ms st) id sz
        (declaredMembers ms)
      exact ⟨l1 ++ l2, by rw [h2, h1, List.append_assoc]⟩

/-- The member registration fold only appends to the registered-id
list. -/
theorem writeForList_reg_append (ts : TypeDescs) (st : TypeSectionW) :
    ∃ l, (writeForList ts st).registered = st.registered ++ l := by
  cases ts with
  | nil => exact ⟨[], by simp [writeForList]⟩
  | cons t ts2 =>
    simp only [writeForList]
    obtain ⟨l1, h1⟩ := writeTypeFor_reg_append t st
    obtain ⟨l2, h2⟩ := writeForList_reg_append ts2 (writeTypeFor t st)
    exact ⟨l1 ++ l2, by rw [h2, h1, List.append_assoc]⟩
end

/-- An id registered before a write stays registered after it. -/
theorem isReg_mono_append (st st2 : TypeSectionW) (id : Nat)
    (h : ∃ l, st2.registered = st.registered ++ l)
    (hr : isTypePreviouslyWritten st id = true) :
    isTypePreviouslyWritten st2 id = true := by
  obtain ⟨l, hl⟩ := h
  simp only [isTypePreviouslyWritten] at hr ⊢
  rw [hl, List.any_append, hr]
  rfl

/-- After the schema write of a record with shape `t`, the id of `t` is
registered. -/
theorem isReg_recordSchemaWrite_self (t : TypeDesc) (st : TypeSectionW) :
    isTypePreviouslyWritten (recordSchemaWrite t st) (descId t) = true := by
  cases t with
  | prim id sz => exact isReg_writeTypeWithoutChecks_self st id sz []
  | agg id sz ms =>
    simp only [recordSchemaWrite, writeTypeAndMembers, descId]
    split
    · assumption
    · exact isReg_writeTypeWithoutChecks_self _ id sz (declaredMembers ms)

/-- `WriteTypeWithoutChecks` on an already-registered id is a no-op. -/
theorem writeTypeWithoutChecks_skip (st : TypeSectionW) (id sizeB : Nat)
    (ms : List (Nat × Nat)) (h : isTypePreviouslyWritten st id = true) :
    writeTypeWithoutChecks st id sizeB ms = st := by
  unfold writeTypeWithoutChecks
  simp [h]

/-- `WriteTypeAndMembers` on an already-registered id is a no-op. -/
theorem writeTypeAndMembers_skip (id sizeB : Nat) (ms : TypeDescs)
    (st : TypeSectionW) (h : isTypePreviouslyWritten st id = true) :
    writeTypeAndMembers id sizeB ms st = st := by
  unfold writeTypeAndMembers
  simp [h]

/-- A second schema write of the same shape is a no-op: every schema
write first checks `IsTypePreviouslyWritten`. -/
theorem recordSchemaWrite_idem (t : TypeDesc) (st : TypeSectionW) :
    recordSchemaWrite t (recordSchemaWrite t st) = recordSchemaWrite t st := by
  have hreg := isReg_recordSchemaWrite_self t st
  cases t with
  | prim id sz =>
    simp only [recordSchemaWrite, descId] at hreg ⊢
    exact writeTypeWithoutChecks_skip _ id sz [] hreg
  | agg id sz ms =>
    simp only [recordSchemaWrite, descId] at hreg ⊢
    exact writeTypeAndMembers_skip id sz ms _ hreg

/-- Registering a new id preserves distinctness of the registered ids. -/
theorem writeTypeWithoutChecks_nodup (st : TypeSectionW) (id sizeB : Nat)
    (ms : List (Nat × Nat))
    (h : (st.registered.map Prod.fst).Nodup) :
    ((writeTypeWithoutChecks st id sizeB ms).registered.map Prod.fst).Nodup := by
  unfold writeTypeWithoutChecks
  split
  · exact h
  · rename_i hnot
    have hnot2 : ∀ x : Nat, (id, x) ∉ st.registered := by
      simpa [isTypePreviouslyWritten] using hnot
    simp only [List.map_append, List.map_cons, List.map_nil]
    rw [List.nodup_append]
    refine ⟨h, List.nodup_singleton id, ?_⟩
    intro a ha hb
    simp only [List.mem_singleton] at hb
    subst hb
    obtain ⟨p, hp, hpe⟩ := List.mem_map.mp ha
    obtain ⟨x, y⟩ := p
    exact hnot2 y (hpe ▸ hp)

mutual
/-- `WriteTypeForTypeId` preserves distinctness of the registered ids. -/
theorem writeTypeFor_nodup (t : TypeDesc) (st : TypeSectionW)
    (h : (st.registered.map Prod.fst).Nodup) :
    (((writeTypeFor t st).registered.map Prod.fst)).Nodup := by
  cases t with
  | prim id sz =>
    simp only [writeTypeFor]
    split
    · exact h
    · exact writeTypeWithoutChecks_nodup st id sz [] h
  | agg id sz ms =>
    simp only [writeTypeFor]
    split
    · exact h
    · exact writeTypeWithoutChecks_nodup _ id sz (declaredMembers ms)
        (writeForList_nodup ms st h)

/-- The member registration fold preserves distinctness of the
registered ids. -/
theorem writeForList_nodup (ts : TypeDescs) (st : TypeSectionW)
    (h : (st.registered.map Prod.fst).Nodup) :
    (((writeForList ts st).registered.map Prod.fst)).Nodup := by
  cases ts with
  | nil => exact h
  | cons t ts2 =>
    exact writeForList_nodup ts2 (writeTypeFor t st) (writeTypeFor_nodup t st h)
end

/-- `recordSchemaWrite` preserves distinctness of the registered ids. -/
theorem recordSchemaWrite_nodup (t : TypeDesc) (st : TypeSectionW)
    (h : (st.registered.map Prod.fst).Nodup) :
    (((recordSchemaWrite t st).registered.map Prod.fst)).Nodup := by
  cases t with
  | prim id sz => exact writeTypeWithoutChecks_nodup st id sz [] h
  | agg id sz ms =>
    simp only [recordSchemaWrite, writeTypeAndMembers]
    split
    · exact h
    · exact writeTypeWithoutChecks_nodup _ id sz (declaredMembers ms)
        (writeForList_nodup ms st h)

/-- Repeated record writes of one shape collapse to a single write. -/
theorem iterSchemaWrite_stable (t : TypeDesc) (st : TypeSectionW) (n : Nat) :
    iterSchemaWrite t (n + 1) st = recordSchemaWrite t st := by
  induction n generalizing st with
  | zero => rfl
  | succ m ih =>
    calc iterSchemaWrite t (m + 2) st
        = iterSchemaWrite t (m + 1) (recordSchemaWrite t st) := rfl
      _ = recordSchemaWrite t (recordSchemaWrite t st) := ih _
      _ = recordSchemaWrite t st := recordSchemaWrite_idem t st

/-- C5, confirmed.  Writing `N ≥ 1` records of one aggregate type into an
archive leaves the type section exactly as a single write does (one entry
per newly seen TypeId, regardless of `N`), and after any sequence of
schema writes starting from an empty section the registered TypeIds are
pairwise distinct: at most one schema entry per TypeId ever exists,
because every write path first checks `IsTypePreviouslyWritten`. -/
theorem c5_schema_dedup (t : TypeDesc) (ops : TypeDescs) (N : Nat) (hN : 1 ≤ N) :
    iterSchemaWrite t N emptyTS = recordSchemaWrite t emptyTS
    ∧ (((iterSchemaWrite t N emptyTS).registered.map Prod.fst)).Nodup
    ∧ (((writeForList ops emptyTS).registered.map Prod.fst)).Nodup := by
  obtain ⟨m, rfl⟩ : ∃ m, N = m + 1 := ⟨N - 1, by omega⟩
  refine ⟨iterSchemaWrite_stable t emptyTS m, ?_, ?_⟩
  · rw [iterSchemaWrite_stable t emptyTS m]
    exact recordSchemaWrite_nodup t emptyTS (by simp [emptyTS])
  · exact writeForList_nodup ops emptyTS (by simp [emptyTS])

/-- Witness for C5: three record writes of a concrete aggregate shape
equal one write, and the registered ids after them are distinct. -/
theorem c5_schema_dedup_witness :
    iterSchemaWrite tW 3 emptyTS = recordSchemaWrite tW emptyTS
    ∧ (((iterSchemaWrite tW 3 emptyTS).registered.map Prod.fst)).Nodup
    ∧ (((writeForList opsW emptyTS).registered.map Prod.fst)).Nodup :=
  c5_schema_dedup tW opsW 3 (by decide)

set_option maxRecDepth 4000 in
/-- C6, refuted by the code (the specification marks this as the intended
behavior): loading a file whose declared type-section length `5` exceeds
the four-byte destination buffer is not rejected — the load completes,
reports no error, and stores five bytes into the capacity-four buffer. -/
theorem c6_load_overflows_capacity :
    (readFromFile tinyBuf tinyBuf fileOversized).1 = .ok ∧
    (readFromFile tinyBuf tinyBuf fileOversized).2.1.data.length = 5 ∧
    (readFromFile tinyBuf tinyBuf fileOversized).2.1.cap = 4 := by
  decide

set_option maxRecDepth 4000 in
/-- C7, refuted by the code (the specification marks this as the intended
behavior): a load that fails on the data-section signature has already
copied the declared type-section bytes into the type buffer, so the
failed `ReadFromFile` leaves the archive with a mutated type-section
buffer. -/
theorem c7_failed_load_mutates_state :
    (readFromFile tinyBuf tinyBuf fileBadDataSig).1 = .badDataSig ∧
    (readFromFile tinyBuf tinyBuf fileBadDataSig).2.1 ≠ tinyBuf := by
  decide

/-- A repeated request for the same type returns the id and registry
state of the first request. -/
theorem getTypeId_idem (r : Registry) (t : Nat) :
    getTypeId ((getTypeId r t).2) t = getTypeId r t := by
  unfold getTypeId
  cases hf : r.assigned.find? (fun p => p.1 == t) with
  | some p => simp [hf]
  | none => simp [hf, List.find?_append]

/-- One request preserves the registry invariant: the assigned ids are
the counter sequence `1, 2, ...` (mod `2^16`), the counter equals the
number of assignments (mod `2^16`), and the registered type keys are
distinct. -/
theorem getTypeId_inv_step (r : Registry) (t : Nat)
    (h1 : r.assigned.map Prod.snd = seqIds r.assigned.length)
    (h2 : r.counter = r.assigned.length % 65536)
    (h3 : (r.assigned.map Prod.fst).Nodup) :
    (getTypeId r t).2.assigned.map Prod.snd = seqIds (getTypeId r t).2.assigned.length
    ∧ (getTypeId r t).2.counter = (getTypeId r t).2.assigned.length % 65536
    ∧ ((getTypeId r t).2.assigned.map Prod.fst).Nodup := by
  unfold getTypeId
  cases hf : r.assigned.find? (fun p => p.1 == t) with
  | some p => exact ⟨h1, h2, h3⟩
  | none =>
    refine ⟨?_, ?_, ?_⟩
    · simp only [List.map_append, List.map_cons, List.map_nil, List.length_append,
        List.length_cons, List.length_nil, h1]
      have hc : (r.counter + 1) % 65536 = (r.assigned.length + 1) % 65536 := by omega
      simp [seqIds, List.range_succ, hc]
    · simp only [List.length_append, List.length_cons, List.length_nil]
      omega
    · have hmem : ∀ x ∈ r.assigned, ¬(x.1 == t) = true := fun x hx =>
        by simpa using List.find?_eq_none.mp hf x hx
      simp only [List.map_append, List.map_cons, List.map_nil]
      rw [List.nodup_append]
      refine ⟨h3, List.nodup_singleton t, ?_⟩
      intro a ha hb
      simp only [List.mem_singleton] at hb
      subst hb
      obtain ⟨p, hp, hpe⟩ := List.mem_map.mp ha
      have hne : ¬p.1 = a := by simpa using hmem p hp
      exact hne hpe

/-- The registry invariant holds after any request sequence. -/
theorem runRequests_inv (reqs : List Nat) :
    (runRequests reqs).assigned.map Prod.snd = seqIds (runRequests reqs).assigned.length
    ∧ (runRequests reqs).counter = (runRequests reqs).assigned.length % 65536
    ∧ ((runRequests reqs).assigned.map Prod.fst).Nodup := by
  suffices h : ∀ (l : List Nat) (r : Registry),
      (r.assigned.map Prod.snd = seqIds r.assigned.length
        ∧ r.counter = r.assigned.length % 65536
        ∧ (r.assigned.map Prod.fst).Nodup) →
      ((l.foldl (fun r t => (getTypeId r t).2) r).assigned.map Prod.snd =
          seqIds (l.foldl (fun r t => (getTypeId r t).2) r).assigned.length
        ∧ (l.foldl (fun r t => (getTypeId r t).2) r).counter =
          (l.foldl (fun r t => (getTypeId r t).2) r).assigned.length % 65536
        ∧ ((l.foldl (fun r t => (getTypeId r t).2) r).assigned.map Prod.fst).Nodup) by
    exact h reqs emptyRegistry (by simp [emptyRegistry, seqIds])
  intro l
  induction l with
  | nil => intro r h; exact h
  | cons t ts ih =>
    intro r h
    exact ih _ (getTypeId_inv_step r t h.1 h.2.1 h.2.2)

/-- A request sequence registers at most one type per request. -/
theorem runRequests_len_le (reqs : List Nat) :
    (runRequests reqs).assigned.length ≤ reqs.length := by
  suffices h : ∀ (l : List Nat) (r : Registry),
      (l.foldl (fun r t => (getTypeId r t).2) r).assigned.length ≤
        r.assigned.length + l.length by
    simpa [runRequests, emptyRegistry] using h reqs emptyRegistry
  intro l
  induction l with
  | nil => intro r; simp
  | cons t ts ih =>
    intro r
    have hstep : (getTypeId r t).2.assigned.length ≤ r.assigned.length + 1 := by
      unfold getTypeId
      cases hf : r.assigned.find? (fun p => p.1 == t) <;> simp [hf]
    have := ih ((getTypeId r t).2)
    simp only [List.foldl_cons, List.length_cons]
    omega

/-- Distinct ids identify unique registrations. -/
theorem mem_pair_snd_unique {l : List (Nat × Nat)} (h : (l.map Prod.snd).Nodup)
    {a b i : Nat} (ha : (a, i) ∈ l) (hb : (b, i) ∈ l) : a = b := by
  induction l with
  | nil => cases ha
  | cons p ps ih =>
    simp only [List.map_cons, List.nodup_cons] at h
    rcases List.mem_cons.mp ha with ha1 | ha2 <;> rcases List.mem_cons.mp hb with hb1 | hb2
    · exact (Prod.ext_iff.mp (ha1.trans hb1.symm)).1
    · exact absurd (by simpa [← ha1] using List.mem_map_of_mem Prod.snd hb2) h.1
    · exact absurd (by simpa [← hb1] using List.mem_map_of_mem Prod.snd ha2) h.1
    · exact ih h.2 ha2 hb2

/-- A request adds at most the requested key to the registered types. -/
theorem getTypeId_keys_cases (r : Registry) (t x : Nat)
    (hx : x ∈ (getTypeId r t).2.assigned.map Prod.fst) :
    x ∈ r.assigned.map Prod.fst ∨ x = t := by
  unfold getTypeId at hx
  cases hf : r.assigned.find? (fun p => p.1 == t) with
  | some p =>
    rw [hf] at hx
    exact Or.inl hx
  | none =>
    rw [hf] at hx
    simp only [List.map_append, List.mem_append, List.map_cons, List.map_nil,
      List.mem_singleton] at hx
    exact hx

/-- Every registered type key was requested at some point. -/
theorem runRequests_keys_subset (reqs : List Nat) :
    ∀ x ∈ (runRequests reqs).assigned.map Prod.fst, x ∈ reqs := by
  suffices h : ∀ (l : List Nat) (r : Registry),
      ∀ x ∈ (l.foldl (fun r t => (getTypeId r t).2) r).assigned.map Prod.fst,
        x ∈ r.assigned.map Prod.fst ∨ x ∈ l by
    intro x hx
    rcases h reqs emptyRegistry x hx with h1 | h2
    · simp [emptyRegistry] at h1
    · exact h2
  intro l
  induction l with
  | nil =>
    intro r x hx
    exact Or.inl hx
  | cons t ts ih =>
    intro r x hx
    simp only [List.foldl_cons] at hx
    rcases ih ((getTypeId r t).2) x hx with h1 | h2
    · rcases getTypeId_keys_cases r t x h1 with h1a | h1b
      · exact Or.inl h1a
      · exact Or.inr (by simp [h1b])
    · exact Or.inr (List.mem_cons_of_mem t h2)

/-- The registry never holds more entries than there are distinct
requested types: the registered keys are pairwise distinct and each was
requested. -/
theorem runRequests_len_le_dedup (reqs : List Nat) :
    (runRequests reqs).assigned.length ≤ reqs.dedup.length := by
  have hnodup := (runRequests_inv reqs).2.2
  have hsub := runRequests_keys_subset reqs
  have hcard1 : ((runRequests reqs).assigned.map Prod.fst).toFinset.card =
      ((runRequests reqs).assigned.map Prod.fst).length :=
    List.toFinset_card_of_nodup hnodup
  have hsubF : ((runRequests reqs).assigned.map Prod.fst).toFinset ⊆
      reqs.toFinset := by
    intro x hx
    exact List.mem_toFinset.mpr (hsub x (List.mem_toFinset.mp hx))
  have hcard2 := Finset.card_le_card hsubF
  rw [hcard1, List.card_toFinset] at hcard2
  simpa using hcard2

/-- C8, corrected.  As long as at most `65535` distinct types are
requested — however many requests there are in total — `GetTypeId` is
idempotent (a repeated request returns the first id and changes
nothing), injective (no two registered types share an id), and assigns
ids sequentially `1, 2, ...`, so id `0` is never assigned; the 16-bit
counter makes all of this fail once a 65536th distinct type is
requested (see the counterexample). -/
theorem c8_registry_amended (reqs : List Nat) (t a b i : Nat)
    (hdistinct : reqs.dedup.length ≤ 65535) :
    getTypeId ((getTypeId (runRequests reqs) t).2) t = getTypeId (runRequests reqs) t
    ∧ ((a, i) ∈ (runRequests reqs).assigned → (b, i) ∈ (runRequests reqs).assigned →
        a = b)
    ∧ (runRequests reqs).assigned.map Prod.snd =
        (List.range (runRequests reqs).assigned.length).map (fun j => j + 1)
    ∧ 0 ∉ (runRequests reqs).assigned.map Prod.snd := by
  obtain ⟨h1, h2, h3⟩ := runRequests_inv reqs
  have hsmall : (runRequests reqs).assigned.length ≤ 65535 :=
    le_trans (runRequests_len_le_dedup reqs) hdistinct
  have hseq : (runRequests reqs).assigned.map Prod.snd =
      (List.range (runRequests reqs).assigned.length).map (fun j => j + 1) := by
    rw [h1, seqIds]
    refine List.map_congr_left ?_
    intro j hj
    simp only [List.mem_range] at hj
    omega
  refine ⟨getTypeId_idem _ t, ?_, hseq, ?_⟩
  · have hnodup : ((runRequests reqs).assigned.map Prod.snd).Nodup := by
      rw [hseq]
      exact (List.nodup_range _).map (fun x y => by omega)
    exact fun ha hb => mem_pair_snd_unique hnodup ha hb
  · rw [hseq]
    intro hmem
    obtain ⟨j, _, hj⟩ := List.mem_map.mp hmem
    omega

/-- Witness for C8: a short request sequence with a repeat. -/
theorem c8_registry_amended_witness :
    getTypeId ((getTypeId (runRequests [10, 20, 10]) 10).2) 10 =
      getTypeId (runRequests [10, 20, 10]) 10
    ∧ ((10, 1) ∈ (runRequests [10, 20, 10]).assigned →
        (20, 1) ∈ (runRequests [10, 20, 10]).assigned → 10 = 20)
    ∧ (runRequests [10, 20, 10]).assigned.map Prod.snd =
        (List.range (runRequests [10, 20, 10]).assigned.length).map (fun j => j + 1)
    ∧ 0 ∉ (runRequests [10, 20, 10]).assigned.map Prod.snd :=
  c8_registry_amended [10, 20, 10] 10 10 20 1 (by decide)

/-- A request sequence of pairwise-distinct fresh types registers exactly
those types, in order. -/
theorem runRequests_keys_of_nodup (reqs : List Nat) (hn : reqs.Nodup) :
    (runRequests reqs).assigned.map Prod.fst = reqs := by
  suffices h : ∀ (l : List Nat) (r : Registry), l.Nodup →
      (∀ t ∈ l, ∀ y, (t, y) ∉ r.assigned) →
      (l.foldl (fun r t => (getTypeId r t).2) r).assigned.map Prod.fst =
        r.assigned.map Prod.fst ++ l by
    have hbase : ∀ t ∈ reqs, ∀ y, (t, y) ∉ emptyRegistry.assigned := by
      intro t ht y hmem
      simp [emptyRegistry] at hmem
    simpa [runRequests, emptyRegistry] using h reqs emptyRegistry hn hbase
  intro l
  induction l with
  | nil => intro r _ _; simp
  | cons t ts ih =>
    intro r hn hfresh
    have hf : r.assigned.find? (fun p => p.1 == t) = none := by
      rw [List.find?_eq_none]
      rintro ⟨x, y⟩ hx hxt
      have hxe : x = t := by simpa using hxt
      subst hxe
      exact hfresh x (by simp) y hx
    simp only [List.nodup_cons] at hn
    simp only [List.foldl_cons]
    have hstep : (getTypeId r t).2.assigned = r.assigned ++ [(t, (r.counter + 1) % 65536)] := by
      unfold getTypeId
      rw [hf]
    rw [ih ((getTypeId r t).2) hn.2 ?fresh]
    case fresh =>
      intro u hu y
      rw [hstep]
      simp only [List.mem_append, List.mem_singleton, not_or]
      refine ⟨fun hmem => hfresh u (by simp [hu]) y hmem, ?_⟩
      intro he
      have : u = t := (Prod.mk.injEq _ _ _ _ ▸ he).1
      exact hn.1 (this ▸ hu)
    rw [hstep]
    simp

/-- A request for an unregistered type returns the incremented 16-bit
counter. -/
theorem getTypeId_fresh (r : Registry) (t : Nat)
    (hf : r.assigned.find? (fun p => p.1 == t) = none) :
    (getTypeId r t).1 = (r.counter + 1) % 65536 := by
  unfold getTypeId
  rw [hf]

/-- Counterexample to C8 as stated: after `65535` distinct types have
been registered the 16-bit counter holds `65535`, and the next distinct
type — the 65536th — is assigned id `(65535 + 1) % 2^16 = 0`, so id `0`
is assigned within one registry lifetime. -/
theorem c8_wraparound :
    (getTypeId (runRequests (List.range 65535)) 65535).1 = 0 := by
  have hkeys := runRequests_keys_of_nodup (List.range 65535) (List.nodup_range _)
  have hlen : (runRequests (List.range 65535)).assigned.length = 65535 := by
    have h := congrArg List.length hkeys
    simpa using h
  have hcounter : (runRequests (List.range 65535)).counter = 65535 := by
    rw [(runRequests_inv (List.range 65535)).2.1, hlen]
  have hf : (runRequests (List.range 65535)).assigned.find?
      (fun p => p.1 == 65535) = none := by
    rw [List.find?_eq_none]
    intro x hx
    have hx1 : x.1 ∈ (runRequests (List.range 65535)).assigned.map Prod.fst :=
      List.mem_map_of_mem Prod.fst hx
    rw [hkeys] at hx1
    simp only [List.mem_range] at hx1
    simp only [beq_iff_eq, Bool.not_eq_true, decide_eq_false_iff_not]
    omega
  rw [getTypeId_fresh _ _ hf, hcounter]

end FxSerialize
